import Mathlib

/-!
Verification of `compile_actions.py`: a compiler that reads action-tool
rows, localization rows and parameter rows from a relational store and
merges them into one denormalized JSON document.

The embedding below translates the Python source shallowly:

* SQLite integers become `Int`, text columns `String`, nullable columns
  `Option`, and blob columns `Option (List Nat)` (a byte is a `Nat`,
  with `< 256` stated as a hypothesis where it matters).
* A Python `dict` becomes an association list `List (κ × β)` with
  `dput` (assignment, last one wins), `dsetdefault` and `dget` (`.get`).
* A `collections.defaultdict(list)` append becomes `dappend`.
* `base64.b64encode` becomes `b64EncodeChunks`, spelled out over byte
  triples with `=` padding, together with a decoder used to state the
  round-trip property.
* The `main` orchestration (I/O, argparse, SystemExit) becomes the pure
  control-flow function `mainModel` returning an `ExitOutcome`.
-/

/-- Python dict assignment `m[k] = v`: replace the value at an existing
key in place, otherwise append the new binding at the end. -/
def dput [DecidableEq κ] (m : List (κ × β)) (k : κ) (v : β) : List (κ × β) :=
  match m with
  | [] => [(k, v)]
  | (k', v') :: rest => if k' = k then (k, v) :: rest else (k', v') :: dput rest k v

/-- Python `m.get(k)`: the value bound to the first (hence only) matching
key, or `none`. -/
def dget [DecidableEq κ] (m : List (κ × β)) (k : κ) : Option β :=
  match m with
  | [] => none
  | (k', v) :: rest => if k' = k then some v else dget rest k

/-- Python `m.setdefault(k, v)`: insert only when the key is absent. -/
def dsetdefault [DecidableEq κ] (m : List (κ × β)) (k : κ) (v : β) : List (κ × β) :=
  match dget m k with
  | some _ => m
  | none => m ++ [(k, v)]

/-- Python `defaultdict(list)` append `m[k].append(v)`: extend the list at
the key, creating an empty list first when the key is absent. -/
def dappend [DecidableEq κ] (m : List (κ × List β)) (k : κ) (v : β) : List (κ × List β) :=
  match m with
  | [] => [(k, [v])]
  | (k', l) :: rest => if k' = k then (k, l ++ [v]) :: rest else (k', l) :: dappend rest k v

@[simp] theorem dget_nil [DecidableEq κ] (k : κ) : dget ([] : List (κ × β)) k = none := rfl

@[simp] theorem dget_cons [DecidableEq κ] (k' k : κ) (v : β) (rest : List (κ × β)) :
    dget ((k', v) :: rest) k = if k' = k then some v else dget rest k := rfl

@[simp] theorem dget_dput_self [DecidableEq κ] (m : List (κ × β)) (k : κ) (v : β) :
    dget (dput m k v) k = some v := by
  induction m with
  | nil => simp [dput]
  | cons hd tl ih =>
    obtain ⟨k', v'⟩ := hd
    by_cases h : k' = k <;> simp [dput, h, ih]

theorem dget_dput_ne [DecidableEq κ] (m : List (κ × β)) (k k' : κ) (v : β) (h : k' ≠ k) :
    dget (dput m k v) k' = dget m k' := by
  induction m with
  | nil => simp [dput, dget, Ne.symm h]
  | cons hd tl ih =>
    obtain ⟨k₀, v₀⟩ := hd
    by_cases h0 : k₀ = k
    · subst h0
      simp [dput, dget, Ne.symm h]
    · by_cases h1 : k₀ = k' <;> simp [dput, dget, h0, h1, h, ih]

theorem dget_append [DecidableEq κ] (m₁ m₂ : List (κ × β)) (k : κ) :
    dget (m₁ ++ m₂) k = (dget m₁ k).or (dget m₂ k) := by
  induction m₁ with
  | nil => simp
  | cons hd tl ih =>
    obtain ⟨k', v⟩ := hd
    by_cases h : k' = k <;> simp [h, ih]

theorem dget_dsetdefault [DecidableEq κ] (m : List (κ × β)) (k k₂ : κ) (v : β) :
    dget (dsetdefault m k v) k₂ =
      (dget m k₂).or (if k = k₂ then some v else none) := by
  unfold dsetdefault
  cases hm : dget m k with
  | some w =>
    by_cases h : k = k₂
    · subst h; simp [hm]
    · simp [h]
  | none =>
    rw [dget_append]
    by_cases h : k = k₂ <;> simp [h]

theorem dget_dappend_self [DecidableEq κ] (m : List (κ × List β)) (k : κ) (v : β) :
    dget (dappend m k v) k = some ((dget m k).getD [] ++ [v]) := by
  induction m with
  | nil => simp [dappend]
  | cons hd tl ih =>
    obtain ⟨k', l⟩ := hd
    by_cases h : k' = k <;> simp [dappend, h, ih]

theorem dget_dappend_ne [DecidableEq κ] (m : List (κ × List β)) (k k' : κ) (v : β)
    (h : k' ≠ k) : dget (dappend m k v) k' = dget m k' := by
  induction m with
  | nil => simp [dappend, dget, Ne.symm h]
  | cons hd tl ih =>
    obtain ⟨k₀, l⟩ := hd
    by_cases h0 : k₀ = k
    · subst h0
      simp [dappend, dget, Ne.symm h]
    · by_cases h1 : k₀ = k' <;> simp [dappend, dget, h0, h1, h, ih]

/-- Value of the standard base64 alphabet at a sextet index (0–63); the
index 64 and above never occurs for valid sextets. -/
def b64Char (n : Nat) : Char :=
  if n < 26 then Char.ofNat (65 + n)
  else if n < 52 then Char.ofNat (97 + (n - 26))
  else if n < 62 then Char.ofNat (48 + (n - 52))
  else if n = 62 then '+'
  else '/'

/-- Inverse of the base64 alphabet: the sextet index of a character, or
`none` for a character outside the alphabet (including the pad `=`). -/
def b64Index (c : Char) : Option Nat :=
  if 'A' ≤ c ∧ c ≤ 'Z' then some (c.toNat - 65)
  else if 'a' ≤ c ∧ c ≤ 'z' then some (c.toNat - 97 + 26)
  else if '0' ≤ c ∧ c ≤ '9' then some (c.toNat - 48 + 52)
  else if c = '+' then some 62
  else if c = '/' then some 63
  else none

/-- Standard base64 of a byte sequence, as produced by `base64.b64encode`:
three bytes become four alphabet characters, a two-byte tail becomes three
characters plus one pad, a one-byte tail two characters plus two pads. -/
def b64EncodeChunks : List Nat → List Char
  | [] => []
  | [b1] => [b64Char (b1 / 4), b64Char (b1 % 4 * 16), '=', '=']
  | [b1, b2] =>
      [b64Char (b1 / 4), b64Char (b1 % 4 * 16 + b2 / 16), b64Char (b2 % 16 * 4), '=']
  | b1 :: b2 :: b3 :: rest =>
      b64Char (b1 / 4) :: b64Char (b1 % 4 * 16 + b2 / 16) ::
        b64Char (b2 % 16 * 4 + b3 / 64) :: b64Char (b3 % 64) :: b64EncodeChunks rest

/-- Base64 decoding of a character sequence: the inverse used to state the
round-trip property of the encoder. -/
def b64Decode : List Char → Option (List Nat)
  | [] => some []
  | c1 :: c2 :: c3 :: c4 :: rest =>
      if c3 == '=' && c4 == '=' && rest.isEmpty then
        match b64Index c1, b64Index c2 with
        | some s1, some s2 => some [s1 * 4 + s2 / 16]
        | _, _ => none
      else if c4 == '=' && rest.isEmpty then
        match b64Index c1, b64Index c2, b64Index c3 with
        | some s1, some s2, some s3 => some [s1 * 4 + s2 / 16, s2 % 16 * 16 + s3 / 4]
        | _, _, _ => none
      else
        match b64Index c1, b64Index c2, b64Index c3, b64Index c4, b64Decode rest with
        | some s1, some s2, some s3, some s4, some tail =>
            some ((s1 * 4 + s2 / 16) :: (s2 % 16 * 16 + s3 / 4) :: (s3 % 4 * 64 + s4) :: tail)
        | _, _, _, _, _ => none
  | _ => none

/-- Embedding of `encode_blob`: `None` stays `None`, an empty byte string
becomes the empty text string, a non-empty byte string becomes its base64
text (the `memoryview` branch only converts the argument to `bytes` and
needs no counterpart here). -/
def encodeBlob : Option (List Nat) → Option String
  | none => none
  | some [] => some ""
  | some bs => some (String.mk (b64EncodeChunks bs))

/-- Python truthiness of `x or d` for a string-or-None `x`: the left
operand unless it is `None` or the empty string. -/
def pyOrStr (x : Option String) (d : String) : String :=
  match x with
  | some s => if s = "" then d else s
  | none => d

theorem b64Index_b64Char : ∀ n, n < 64 → b64Index (b64Char n) = some n := by decide

theorem b64Char_ne_pad : ∀ n, n < 64 → (b64Char n == '=') = false := by decide

theorem b64Decode_b64EncodeChunks (bs : List Nat) (h : ∀ b ∈ bs, b < 256) :
    b64Decode (b64EncodeChunks bs) = some bs := by
  induction bs using b64EncodeChunks.induct with
  | case1 => rw [b64EncodeChunks, b64Decode]
  | case2 b1 =>
    have hb1 : b1 < 256 := h b1 (by simp)
    rw [b64EncodeChunks, b64Decode]
    simp only [List.isEmpty_nil, Bool.and_true, beq_self_eq_true]
    rw [b64Index_b64Char _ (by omega), b64Index_b64Char _ (by omega)]
    simp only [if_true, Option.some.injEq, List.cons.injEq, and_true]
    omega
  | case3 b1 b2 =>
    have hb1 : b1 < 256 := h b1 (by simp)
    have hb2 : b2 < 256 := h b2 (by simp)
    rw [b64EncodeChunks, b64Decode]
    simp only [List.isEmpty_nil, Bool.and_true, beq_self_eq_true,
      b64Char_ne_pad _ (by omega : b2 % 16 * 4 < 64), Bool.false_and, Bool.and_false]
    rw [if_neg (by simp)]
    rw [b64Index_b64Char _ (by omega), b64Index_b64Char _ (by omega),
      b64Index_b64Char _ (by omega)]
    simp only [if_true, Option.some.injEq, List.cons.injEq, and_true]
    omega
  | case4 b1 b2 b3 rest ih =>
    have hb1 : b1 < 256 := h b1 (by simp)
    have hb2 : b2 < 256 := h b2 (by simp)
    have hb3 : b3 < 256 := h b3 (by simp)
    have hrest : ∀ b ∈ rest, b < 256 := fun b hb => h b (by simp [hb])
    rw [b64EncodeChunks, b64Decode]
    simp only [b64Char_ne_pad _ (by omega : b2 % 16 * 4 + b3 / 64 < 64),
      b64Char_ne_pad _ (by omega : b3 % 64 < 64), Bool.false_and, Bool.and_false]
    rw [if_neg (by simp), if_neg (by simp)]
    rw [b64Index_b64Char _ (by omega), b64Index_b64Char _ (by omega),
      b64Index_b64Char _ (by omega), b64Index_b64Char _ (by omega), ih hrest]
    simp only [Option.some.injEq, List.cons.injEq]
    refine ⟨by omega, by omega, by omega, trivial⟩

/-- One row of the `Tools` relation, as selected by `fetch_tool_rows`. -/
structure Tool where
  rowId : Int
  id : String
  toolType : String
  flags : Int
  visibilityFlags : Int
  requirements : Option (List Nat)
  authenticationPolicy : Option Int
  customIcon : Option (List Nat)
  deprecationReplacementId : Option String
  sourceActionProvider : Option String
  outputTypeInstance : Option (List Nat)
  sourceContainerId : Option String
  attributionContainerId : Option String
  deriving Repr, DecidableEq

/-- One row of the `ToolLocalizations` relation, as selected by the query
inside `fetch_tool_localizations`. -/
structure ToolLocRow where
  toolId : Int
  locale : String
  name : Option String
  descriptionSummary : Option String
  deriving Repr, DecidableEq

/-- One row of the `ParameterLocalizations` relation, as selected by the
query inside `fetch_parameter_localizations`. -/
structure ParamLocRow where
  toolId : Int
  key : String
  locale : String
  name : Option String
  description : Option String
  deriving Repr, DecidableEq

/-- One row of the `Types` relation. -/
structure TypeRow where
  rowId : Int
  id : Option (List Nat)
  kind : Option String
  runtimeFlags : Option Int
  runtimeRequirements : Option (List Nat)
  deriving Repr, DecidableEq

/-- One row of the `Parameters` relation before the join with `Types`. -/
structure ParamTableRow where
  toolId : Int
  key : String
  sortOrder : Int
  relationships : Option (List Nat)
  flags : Int
  typeId : Option Int
  typeInstance : Option (List Nat)
  deriving Repr, DecidableEq

/-- One row of the result of `fetch_parameters`: a `Parameters` row left
joined with its optional `Types` row. -/
structure ParamRow where
  toolId : Int
  key : String
  sortOrder : Int
  relationships : Option (List Nat)
  flags : Int
  typeId : Option Int
  typeInstance : Option (List Nat)
  typeIdentifier : Option (List Nat)
  typeKind : Option String
  typeRuntimeFlags : Option Int
  typeRuntimeRequirements : Option (List Nat)
  deriving Repr, DecidableEq

/-- The nested `type` object of one argument record of the output. -/
structure TypeObj where
  rowId : Option Int
  kind : Option String
  runtimeFlags : Option Int
  runtimeRequirements : Option String
  encodedId : Option String
  deriving Repr, DecidableEq

/-- One element of a tool record's `arguments` sequence. -/
structure ArgRecord where
  key : String
  name : String
  description : Option String
  sortOrder : Int
  flags : Int
  relationships : Option String
  typeInstance : Option String
  type : TypeObj
  deriving Repr, DecidableEq

/-- One value of the output's `actions` map. -/
structure ToolRecord where
  rowId : Int
  name : String
  description : Option String
  toolType : String
  sourceActionProvider : Option String
  sourceContainerId : Option String
  attributionContainerId : Option String
  flags : Int
  visibilityFlags : Int
  authenticationPolicy : Option Int
  deprecationReplacementId : Option String
  requirements : Option String
  outputTypeInstance : Option String
  customIcon : Option String
  arguments : List ArgRecord
  deriving Repr, DecidableEq

/-- Contents of the source store: the four relations read by the script. -/
structure Db where
  tools : List Tool
  toolLocs : List ToolLocRow
  paramLocs : List ParamLocRow
  paramsTable : List ParamTableRow
  types : List TypeRow
  deriving Repr, DecidableEq

/-- Internal row identifiers of the action-classified tools, i.e. the SQL
subquery `SELECT rowId FROM Tools WHERE toolType = 'action'`. -/
def actionToolIds (tools : List Tool) : List Int :=
  (tools.filter (fun t => t.toolType == "action")).map (fun t => t.rowId)

/-- Embedding of `fetch_tool_rows`: the action-classified tool rows
ordered by internal row identifier. -/
def fetchToolRows (db : Db) : List Tool :=
  List.insertionSort (fun a b => a.rowId ≤ b.rowId)
    (db.tools.filter (fun t => t.toolType == "action"))

/-- The locale-restricted query inside `fetch_tool_localizations`. -/
def queryToolLocs (db : Db) (loc : String) : List ToolLocRow :=
  db.toolLocs.filter (fun r => r.locale == loc && (actionToolIds db.tools).contains r.toolId)

/-- Embedding of `fetch_tool_localizations`: a primary-locale pass of dict
assignments, then — only when the fallback locale is truthy (non-`None`,
non-empty) and differs from the primary — a fallback pass of
`setdefault` insertions. -/
def fetchToolLocalizations (db : Db) (locale : String) (fallback : Option String) :
    List (Int × ToolLocRow) :=
  let primary := (queryToolLocs db locale).foldl (fun m r => dput m r.toolId r) []
  match fallback with
  | some f =>
      if f ≠ "" ∧ f ≠ locale then
        (queryToolLocs db f).foldl (fun m r => dsetdefault m r.toolId r) primary
      else primary
  | none => primary

/-- The locale-restricted query inside `fetch_parameter_localizations`. -/
def queryParamLocs (db : Db) (loc : String) : List ParamLocRow :=
  db.paramLocs.filter (fun r => r.locale == loc && (actionToolIds db.tools).contains r.toolId)

/-- Embedding of `fetch_parameter_localizations`, keyed by the pair of
owning tool identifier and parameter key. -/
def fetchParameterLocalizations (db : Db) (locale : String) (fallback : Option String) :
    List ((Int × String) × ParamLocRow) :=
  let primary := (queryParamLocs db locale).foldl (fun m r => dput m (r.toolId, r.key) r) []
  match fallback with
  | some f =>
      if f ≠ "" ∧ f ≠ locale then
        (queryParamLocs db f).foldl (fun m r => dsetdefault m (r.toolId, r.key) r) primary
      else primary
  | none => primary

/-- The `LEFT JOIN Types ON Types.rowId = Parameters.typeId` of one
`Parameters` row: the joined type columns are null when the reference is
null or dangling. -/
def joinType (types : List TypeRow) (p : ParamTableRow) : ParamRow :=
  let ty : Option TypeRow := match p.typeId with
    | some tid => types.find? (fun ty => ty.rowId == tid)
    | none => none
  { toolId := p.toolId
    key := p.key
    sortOrder := p.sortOrder
    relationships := p.relationships
    flags := p.flags
    typeId := p.typeId
    typeInstance := p.typeInstance
    typeIdentifier := match ty with | some t => t.id | none => none
    typeKind := match ty with | some t => t.kind | none => none
    typeRuntimeFlags := match ty with | some t => t.runtimeFlags | none => none
    typeRuntimeRequirements := match ty with | some t => t.runtimeRequirements | none => none }

/-- Comparison used by the `ORDER BY Parameters.toolId, Parameters.sortOrder,
Parameters.key` clause of `fetch_parameters`. -/
def paramRowLe (a b : ParamRow) : Prop :=
  a.toolId < b.toolId ∨
    (a.toolId = b.toolId ∧
      (a.sortOrder < b.sortOrder ∨
        (a.sortOrder = b.sortOrder ∧ (a.key < b.key ∨ a.key = b.key))))

instance : DecidableRel paramRowLe := fun a b => by
  unfold paramRowLe; infer_instance

/-- Embedding of `fetch_parameters`: parameters of action tools joined with
their optional type, ordered by (owning tool, sort order, key). -/
def fetchParameters (db : Db) : List ParamRow :=
  List.insertionSort paramRowLe
    ((db.paramsTable.filter (fun p => (actionToolIds db.tools).contains p.toolId)).map
      (joinType db.types))

/-- One argument record, as constructed inside the first loop of
`build_payload` for one parameter row. -/
def argRecord (pl : List ((Int × String) × ParamLocRow)) (p : ParamRow) : ArgRecord :=
  let localized := dget pl (p.toolId, p.key)
  { key := p.key
    name := pyOrStr (match localized with | some l => l.name | none => none) p.key
    description := match localized with | some l => l.description | none => none
    sortOrder := p.sortOrder
    flags := p.flags
    relationships := encodeBlob p.relationships
    typeInstance := encodeBlob p.typeInstance
    type :=
      { rowId := p.typeId
        kind := p.typeKind
        runtimeFlags := p.typeRuntimeFlags
        runtimeRequirements := encodeBlob p.typeRuntimeRequirements
        encodedId := encodeBlob p.typeIdentifier } }

/-- The `params_by_tool` grouping of `build_payload`: a defaultdict of
argument records keyed by owning tool identifier, filled in input order. -/
def paramsByTool (pl : List ((Int × String) × ParamLocRow)) (params : List ParamRow) :
    List (Int × List ArgRecord) :=
  params.foldl (fun m p => dappend m p.toolId (argRecord pl p)) []

/-- One tool record, as constructed inside the second loop of
`build_payload` for one tool row. -/
def mkToolRecord (tl : List (Int × ToolLocRow)) (pbt : List (Int × List ArgRecord))
    (t : Tool) : ToolRecord :=
  let localized := dget tl t.rowId
  { rowId := t.rowId
    name := pyOrStr (match localized with | some l => l.name | none => none) t.id
    description := match localized with | some l => l.descriptionSummary | none => none
    toolType := t.toolType
    sourceActionProvider := t.sourceActionProvider
    sourceContainerId := t.sourceContainerId
    attributionContainerId := t.attributionContainerId
    flags := t.flags
    visibilityFlags := t.visibilityFlags
    authenticationPolicy := t.authenticationPolicy
    deprecationReplacementId := t.deprecationReplacementId
    requirements := encodeBlob t.requirements
    outputTypeInstance := encodeBlob t.outputTypeInstance
    customIcon := encodeBlob t.customIcon
    arguments := (dget pbt t.rowId).getD [] }

/-- Embedding of `build_payload`: group the parameters by owning tool, then
assemble the `compiled` dict keyed by each tool's public identifier. -/
def buildPayload (tools : List Tool) (tl : List (Int × ToolLocRow))
    (pl : List ((Int × String) × ParamLocRow)) (params : List ParamRow) :
    List (String × ToolRecord) :=
  let pbt := paramsByTool pl params
  tools.foldl (fun m t => dput m t.id (mkToolRecord tl pbt t)) []

/-- The `metadata` header plus the `actions` map of the output document. -/
structure Payload where
  generatedAt : String
  locale : String
  fallbackLocale : String
  sourceDatabase : String
  actionCount : Nat
  actions : List (String × ToolRecord)
  deriving Repr, DecidableEq

/-- Observable outcome of one run of `main`: either a fatal `SystemExit`
with its message and no file written, or exactly one write of the compiled
document to the output path. -/
inductive ExitOutcome where
  | fatal (msg : String)
  | wrote (path : String) (payload : Payload)
  deriving Repr, DecidableEq

/-- Control flow of `main` over an abstract world: the store contents, the
existence of the store path, the parsed options and the current timestamp
are inputs; file writing is the `wrote` outcome. The two fatal checks
happen, in source order, before any output-producing step. -/
def mainModel (dbExists : Bool) (db : Db) (dbPath outputPath locale fallbackLocale now : String) :
    ExitOutcome :=
  if !dbExists then .fatal ("Database not found: " ++ dbPath)
  else
    let tools := fetchToolRows db
    if tools = [] then .fatal "No action tools found in the database."
    else
      let tl := fetchToolLocalizations db locale (some fallbackLocale)
      let pl := fetchParameterLocalizations db locale (some fallbackLocale)
      let params := fetchParameters db
      let compiled := buildPayload tools tl pl params
      .wrote outputPath
        { generatedAt := now
          locale := locale
          fallbackLocale := fallbackLocale
          sourceDatabase := dbPath
          actionCount := compiled.length
          actions := compiled }

theorem dget_foldl_dput_of_forall_ne {κ ρ β : Type} [DecidableEq κ] (key : ρ → κ) (g : ρ → β)
    (rows : List ρ) (m : List (κ × β)) (k : κ) (h : ∀ r ∈ rows, key r ≠ k) :
    dget (rows.foldl (fun acc r => dput acc (key r) (g r)) m) k = dget m k := by
  induction rows generalizing m with
  | nil => rfl
  | cons r0 rs ih =>
    simp only [List.foldl_cons]
    rw [ih _ (fun r hr => h r (List.mem_cons_of_mem _ hr))]
    exact dget_dput_ne _ _ _ _ (fun hk => h r0 (List.mem_cons_self _ _) hk.symm)

theorem dget_foldl_dput_of_exists {κ ρ β : Type} [DecidableEq κ] (key : ρ → κ) (g : ρ → β)
    (rows : List ρ) (m : List (κ × β)) (k : κ) (h : ∃ r ∈ rows, key r = k) :
    ∃ r, r ∈ rows ∧ key r = k ∧
      dget (rows.foldl (fun acc r => dput acc (key r) (g r)) m) k = some (g r) := by
  induction rows generalizing m with
  | nil => obtain ⟨r, hr, _⟩ := h; exact absurd hr (List.not_mem_nil r)
  | cons r0 rs ih =>
    by_cases hex : ∃ r ∈ rs, key r = k
    · obtain ⟨r, hr, hk, heq⟩ := ih (dput m (key r0) (g r0)) hex
      exact ⟨r, List.mem_cons_of_mem _ hr, hk, by simpa using heq⟩
    · have hk0 : key r0 = k := by
        obtain ⟨r, hr, hk⟩ := h
        rcases List.mem_cons.mp hr with h' | h'
        · subst h'; exact hk
        · exact absurd ⟨r, h', hk⟩ hex
      refine ⟨r0, List.mem_cons_self _ _, hk0, ?_⟩
      simp only [List.foldl_cons]
      rw [dget_foldl_dput_of_forall_ne key g rs _ k
        (fun r hr hk => hex ⟨r, hr, hk⟩), ← hk0, dget_dput_self]

theorem dget_foldl_dput_eq_some {κ ρ β : Type} [DecidableEq κ] (key : ρ → κ) (g : ρ → β)
    (rows : List ρ) (m : List (κ × β)) (k : κ) (v : β)
    (h : dget (rows.foldl (fun acc r => dput acc (key r) (g r)) m) k = some v) :
    (∃ r ∈ rows, key r = k ∧ v = g r) ∨ dget m k = some v := by
  induction rows generalizing m with
  | nil => exact Or.inr h
  | cons r0 rs ih =>
    simp only [List.foldl_cons] at h
    rcases ih _ h with h' | h'
    · obtain ⟨r, hr, hk, hv⟩ := h'
      exact Or.inl ⟨r, List.mem_cons_of_mem _ hr, hk, hv⟩
    · by_cases hk : key r0 = k
      · subst hk
        rw [dget_dput_self] at h'
        exact Or.inl ⟨r0, List.mem_cons_self _ _, rfl, (Option.some.injEq _ _ ▸ h').symm⟩
      · rw [dget_dput_ne _ _ _ _ (fun hh => hk hh.symm)] at h'
        exact Or.inr h'

theorem dget_foldl_dput_of_nodup {κ ρ β : Type} [DecidableEq κ] (key : ρ → κ) (g : ρ → β)
    (rows : List ρ) (m : List (κ × β)) (r : ρ) (hnd : (rows.map key).Nodup)
    (hr : r ∈ rows) :
    dget (rows.foldl (fun acc r => dput acc (key r) (g r)) m) (key r) = some (g r) := by
  induction rows generalizing m with
  | nil => exact absurd hr (List.not_mem_nil r)
  | cons r0 rs ih =>
    simp only [List.map_cons, List.nodup_cons] at hnd
    rcases List.mem_cons.mp hr with h' | h'
    · subst h'
      simp only [List.foldl_cons]
      rw [dget_foldl_dput_of_forall_ne key g rs _ (key r)
        (fun r' hr' hk => hnd.1 (hk ▸ List.mem_map_of_mem key hr')), dget_dput_self]
    · simp only [List.foldl_cons]
      exact ih _ hnd.2 h'

theorem dget_foldl_dsetdefault_of_some {κ ρ β : Type} [DecidableEq κ] (key : ρ → κ)
    (g : ρ → β) (rows : List ρ) (m : List (κ × β)) (k : κ) (w : β)
    (h : dget m k = some w) :
    dget (rows.foldl (fun acc r => dsetdefault acc (key r) (g r)) m) k = some w := by
  induction rows generalizing m with
  | nil => exact h
  | cons r0 rs ih =>
    simp only [List.foldl_cons]
    exact ih _ (by rw [dget_dsetdefault, h]; rfl)

theorem dget_foldl_dsetdefault_of_none_exists {κ ρ β : Type} [DecidableEq κ] (key : ρ → κ)
    (g : ρ → β) (rows : List ρ) (m : List (κ × β)) (k : κ)
    (h : dget m k = none) (he : ∃ r ∈ rows, key r = k) :
    ∃ r, r ∈ rows ∧ key r = k ∧
      dget (rows.foldl (fun acc r => dsetdefault acc (key r) (g r)) m) k = some (g r) := by
  induction rows generalizing m with
  | nil => obtain ⟨r, hr, _⟩ := he; exact absurd hr (List.not_mem_nil r)
  | cons r0 rs ih =>
    by_cases hk0 : key r0 = k
    · refine ⟨r0, List.mem_cons_self _ _, hk0, ?_⟩
      simp only [List.foldl_cons]
      have hput : dget (dsetdefault m (key r0) (g r0)) k = some (g r0) := by
        rw [dget_dsetdefault, h, hk0]; simp
      exact dget_foldl_dsetdefault_of_some key g rs _ k (g r0) hput
    · have hnext : dget (dsetdefault m (key r0) (g r0)) k = none := by
        rw [dget_dsetdefault, h]
        simp [hk0]
      have he' : ∃ r ∈ rs, key r = k := by
        obtain ⟨r, hr, hk⟩ := he
        rcases List.mem_cons.mp hr with h' | h'
        · exact absurd (h' ▸ hk) hk0
        · exact ⟨r, h', hk⟩
      obtain ⟨r, hr, hk, heq⟩ := ih _ hnext he'
      exact ⟨r, List.mem_cons_of_mem _ hr, hk, by simpa using heq⟩

theorem dget_foldl_dsetdefault_of_none_forall {κ ρ β : Type} [DecidableEq κ] (key : ρ → κ)
    (g : ρ → β) (rows : List ρ) (m : List (κ × β)) (k : κ)
    (h : dget m k = none) (hn : ∀ r ∈ rows, key r ≠ k) :
    dget (rows.foldl (fun acc r => dsetdefault acc (key r) (g r)) m) k = none := by
  induction rows generalizing m with
  | nil => exact h
  | cons r0 rs ih =>
    simp only [List.foldl_cons]
    refine ih _ ?_ (fun r hr => hn r (List.mem_cons_of_mem _ hr))
    rw [dget_dsetdefault, h]
    simp [hn r0 (List.mem_cons_self _ _)]

theorem dget_foldl_dappend_getD {κ ρ β : Type} [DecidableEq κ] (key : ρ → κ) (g : ρ → β)
    (rows : List ρ) (m : List (κ × List β)) (k : κ) :
    (dget (rows.foldl (fun acc r => dappend acc (key r) (g r)) m) k).getD [] =
      (dget m k).getD [] ++ (rows.filter (fun r => decide (key r = k))).map g := by
  induction rows generalizing m with
  | nil => simp
  | cons r0 rs ih =>
    simp only [List.foldl_cons]
    rw [ih]
    by_cases hk : key r0 = k
    · rw [← hk, dget_dappend_self]
      simp [hk, List.filter_cons]
    · rw [dget_dappend_ne _ _ _ _ (fun hh => hk hh.symm)]
      simp [hk, List.filter_cons]

theorem paramsByTool_getD (pl : List ((Int × String) × ParamLocRow)) (params : List ParamRow)
    (k : Int) :
    (dget (paramsByTool pl params) k).getD [] =
      (params.filter (fun p => decide (p.toolId = k))).map (argRecord pl) := by
  have h := dget_foldl_dappend_getD (fun p => p.toolId) (argRecord pl) params [] k
  simpa [paramsByTool] using h

theorem buildPayload_dget_of_nodup (tools : List Tool) (tl : List (Int × ToolLocRow))
    (pl : List ((Int × String) × ParamLocRow)) (params : List ParamRow) (t : Tool)
    (hnd : (tools.map (fun t => t.id)).Nodup) (ht : t ∈ tools) :
    dget (buildPayload tools tl pl params) t.id =
      some (mkToolRecord tl (paramsByTool pl params) t) := by
  show dget
      (tools.foldl (fun m t => dput m t.id (mkToolRecord tl (paramsByTool pl params) t)) [])
      t.id = some (mkToolRecord tl (paramsByTool pl params) t)
  exact dget_foldl_dput_of_nodup (fun t : Tool => t.id)
    (fun t => mkToolRecord tl (paramsByTool pl params) t) tools [] t hnd ht

theorem buildPayload_dget_eq_some (tools : List Tool) (tl : List (Int × ToolLocRow))
    (pl : List ((Int × String) × ParamLocRow)) (params : List ParamRow) (k : String)
    (rec : ToolRecord) (h : dget (buildPayload tools tl pl params) k = some rec) :
    ∃ t, t ∈ tools ∧ t.id = k ∧ rec = mkToolRecord tl (paramsByTool pl params) t := by
  have h0 : dget
      (tools.foldl (fun m t => dput m t.id (mkToolRecord tl (paramsByTool pl params) t)) [])
      k = some rec := h
  rcases dget_foldl_dput_eq_some (fun t : Tool => t.id)
      (fun t => mkToolRecord tl (paramsByTool pl params) t) tools [] k rec h0 with h' | h'
  · obtain ⟨t, ht, hk, hv⟩ := h'
    exact ⟨t, ht, hk, hv⟩
  · simp at h'

theorem mkToolRecord_arguments (tl : List (Int × ToolLocRow)) (pbt : List (Int × List ArgRecord))
    (t : Tool) : (mkToolRecord tl pbt t).arguments = (dget pbt t.rowId).getD [] := rfl

theorem filter_eq_singleton_of_nodup_map {α κ : Type} [DecidableEq κ] (f : α → κ)
    (l : List α) (t : α) (hnd : (l.map f).Nodup) (ht : t ∈ l) :
    l.filter (fun x => decide (f t = f x)) = [t] := by
  induction l with
  | nil => cases ht
  | cons a as ih =>
    simp only [List.map_cons, List.nodup_cons] at hnd
    rcases List.mem_cons.mp ht with h' | h'
    · subst h'
      rw [List.filter_cons]
      have hrest : as.filter (fun x => decide (f t = f x)) = [] :=
        List.filter_eq_nil_iff.mpr
          (fun x hx => by
            simp only [decide_eq_true_eq]
            exact fun h => hnd.1 (h ▸ List.mem_map_of_mem f hx))
      simp [hrest]
    · rw [List.filter_cons]
      have hne : ¬ (f t = f a) := fun h => hnd.1 (h ▸ List.mem_map_of_mem f h')
      simp [hne, ih hnd.2 h']

theorem toolLoc_dget_primary (db : Db) (L : String) (F : Option String) (k : Int)
    (h : ∃ r ∈ queryToolLocs db L, r.toolId = k) :
    ∃ r, r ∈ queryToolLocs db L ∧ r.toolId = k ∧
      dget (fetchToolLocalizations db L F) k = some r := by
  obtain ⟨r, hr, hk, heq⟩ :=
    dget_foldl_dput_of_exists (fun r : ToolLocRow => r.toolId) (fun r => r)
      (queryToolLocs db L) [] k h
  refine ⟨r, hr, hk, ?_⟩
  cases F with
  | none =>
    simp only [fetchToolLocalizations]
    exact heq
  | some f =>
    simp only [fetchToolLocalizations]
    by_cases hc : f ≠ "" ∧ f ≠ L
    · rw [if_pos hc]
      exact dget_foldl_dsetdefault_of_some _ _ _ _ _ _ heq
    · rw [if_neg hc]
      exact heq

theorem toolLoc_dget_fallback (db : Db) (L f : String) (k : Int)
    (hne : f ≠ "") (hnl : f ≠ L)
    (hp : ∀ r ∈ queryToolLocs db L, r.toolId ≠ k)
    (h : ∃ r ∈ queryToolLocs db f, r.toolId = k) :
    ∃ r, r ∈ queryToolLocs db f ∧ r.toolId = k ∧
      dget (fetchToolLocalizations db L (some f)) k = some r := by
  have hprim : dget ((queryToolLocs db L).foldl (fun m r => dput m r.toolId r) []) k = none := by
    rw [dget_foldl_dput_of_forall_ne (fun r : ToolLocRow => r.toolId) (fun r => r) _ _ _ hp]
    rfl
  obtain ⟨r, hr, hk, heq⟩ :=
    dget_foldl_dsetdefault_of_none_exists (fun r : ToolLocRow => r.toolId) (fun r => r)
      (queryToolLocs db f) _ k hprim h
  refine ⟨r, hr, hk, ?_⟩
  simp only [fetchToolLocalizations]
  rw [if_pos (And.intro hne hnl)]
  exact heq

theorem toolLoc_dget_none (db : Db) (L : String) (F : Option String) (k : Int)
    (hp : ∀ r ∈ queryToolLocs db L, r.toolId ≠ k)
    (hf : ∀ f, F = some f → f ≠ "" → f ≠ L → ∀ r ∈ queryToolLocs db f, r.toolId ≠ k) :
    dget (fetchToolLocalizations db L F) k = none := by
  have hprim : dget ((queryToolLocs db L).foldl (fun m r => dput m r.toolId r) []) k = none := by
    rw [dget_foldl_dput_of_forall_ne (fun r : ToolLocRow => r.toolId) (fun r => r) _ _ _ hp]
    rfl
  cases F with
  | none =>
    simp only [fetchToolLocalizations]
    exact hprim
  | some f =>
    simp only [fetchToolLocalizations]
    by_cases hc : f ≠ "" ∧ f ≠ L
    · rw [if_pos hc]
      exact dget_foldl_dsetdefault_of_none_forall _ _ _ _ _ hprim (hf f rfl hc.1 hc.2)
    · rw [if_neg hc]
      exact hprim

theorem paramLoc_dget_primary (db : Db) (L : String) (F : Option String) (pk : Int × String)
    (h : ∃ r ∈ queryParamLocs db L, (r.toolId, r.key) = pk) :
    ∃ r, r ∈ queryParamLocs db L ∧ (r.toolId, r.key) = pk ∧
      dget (fetchParameterLocalizations db L F) pk = some r := by
  obtain ⟨r, hr, hk, heq⟩ :=
    dget_foldl_dput_of_exists (fun r : ParamLocRow => (r.toolId, r.key)) (fun r => r)
      (queryParamLocs db L) [] pk h
  refine ⟨r, hr, hk, ?_⟩
  cases F with
  | none =>
    simp only [fetchParameterLocalizations]
    exact heq
  | some f =>
    simp only [fetchParameterLocalizations]
    by_cases hc : f ≠ "" ∧ f ≠ L
    · rw [if_pos hc]
      exact dget_foldl_dsetdefault_of_some _ _ _ _ _ _ heq
    · rw [if_neg hc]
      exact heq

theorem paramLoc_dget_fallback (db : Db) (L f : String) (pk : Int × String)
    (hne : f ≠ "") (hnl : f ≠ L)
    (hp : ∀ r ∈ queryParamLocs db L, (r.toolId, r.key) ≠ pk)
    (h : ∃ r ∈ queryParamLocs db f, (r.toolId, r.key) = pk) :
    ∃ r, r ∈ queryParamLocs db f ∧ (r.toolId, r.key) = pk ∧
      dget (fetchParameterLocalizations db L (some f)) pk = some r := by
  have hprim : dget
      ((queryParamLocs db L).foldl (fun m r => dput m (r.toolId, r.key) r) []) pk = none := by
    rw [dget_foldl_dput_of_forall_ne (fun r : ParamLocRow => (r.toolId, r.key))
      (fun r => r) _ _ _ hp]
    rfl
  obtain ⟨r, hr, hk, heq⟩ :=
    dget_foldl_dsetdefault_of_none_exists (fun r : ParamLocRow => (r.toolId, r.key))
      (fun r => r) (queryParamLocs db f) _ pk hprim h
  refine ⟨r, hr, hk, ?_⟩
  simp only [fetchParameterLocalizations]
  rw [if_pos (And.intro hne hnl)]
  exact heq

theorem paramLoc_dget_none (db : Db) (L : String) (F : Option String) (pk : Int × String)
    (hp : ∀ r ∈ queryParamLocs db L, (r.toolId, r.key) ≠ pk)
    (hf : ∀ f, F = some f → f ≠ "" → f ≠ L →
      ∀ r ∈ queryParamLocs db f, (r.toolId, r.key) ≠ pk) :
    dget (fetchParameterLocalizations db L F) pk = none := by
  have hprim : dget
      ((queryParamLocs db L).foldl (fun m r => dput m (r.toolId, r.key) r) []) pk = none := by
    rw [dget_foldl_dput_of_forall_ne (fun r : ParamLocRow => (r.toolId, r.key))
      (fun r => r) _ _ _ hp]
    rfl
  cases F with
  | none =>
    simp only [fetchParameterLocalizations]
    exact hprim
  | some f =>
    simp only [fetchParameterLocalizations]
    by_cases hc : f ≠ "" ∧ f ≠ L
    · rw [if_pos hc]
      exact dget_foldl_dsetdefault_of_none_forall _ _ _ _ _ hprim (hf f rfl hc.1 hc.2)
    · rw [if_neg hc]
      exact hprim

/-- Sample action tool used by concrete witnesses. -/
def toolA : Tool :=
  { rowId := 1, id := "com.example.action", toolType := "action", flags := 0,
    visibilityFlags := 0, requirements := none, authenticationPolicy := none,
    customIcon := none, deprecationReplacementId := none, sourceActionProvider := none,
    outputTypeInstance := none, sourceContainerId := none, attributionContainerId := none }

/-- Second sample action tool with distinct identifiers. -/
def toolB : Tool :=
  { rowId := 2, id := "com.example.other", toolType := "action", flags := 0,
    visibilityFlags := 0, requirements := none, authenticationPolicy := none,
    customIcon := none, deprecationReplacementId := none, sourceActionProvider := none,
    outputTypeInstance := none, sourceContainerId := none, attributionContainerId := none }

/-- Sample English tool localization row. -/
def locEn : ToolLocRow :=
  { toolId := 1, locale := "en", name := some "English Name", descriptionSummary := none }

/-- Sample French tool localization row. -/
def locFr : ToolLocRow :=
  { toolId := 1, locale := "fr", name := some "Nom", descriptionSummary := none }

/-- Tool localization row whose name is the empty string. -/
def locEmptyName : ToolLocRow :=
  { toolId := 1, locale := "en", name := some "", descriptionSummary := none }

/-- Tool localization row whose locale is the empty string. -/
def locBlank : ToolLocRow :=
  { toolId := 1, locale := "", name := some "Blank locale name", descriptionSummary := none }

/-- Sample parameter localization row. -/
def plocEn : ParamLocRow :=
  { toolId := 1, key := "value", locale := "en", name := some "Value", description := none }

/-- Parameter localization row whose name is the empty string. -/
def plocEmptyName : ParamLocRow :=
  { toolId := 1, key := "value", locale := "en", name := some "", description := none }

/-- Sample parameter row with no localization and no type. -/
def paramP : ParamRow :=
  { toolId := 1, key := "value", sortOrder := 0, relationships := none, flags := 0,
    typeId := none, typeInstance := none, typeIdentifier := none, typeKind := none,
    typeRuntimeFlags := none, typeRuntimeRequirements := none }

/-- Parameter row with key "a" and sort order 1. -/
def paramA : ParamRow :=
  { toolId := 1, key := "a", sortOrder := 1, relationships := none, flags := 0,
    typeId := none, typeInstance := none, typeIdentifier := none, typeKind := none,
    typeRuntimeFlags := none, typeRuntimeRequirements := none }

/-- Parameter row with key "b" and sort order 2. -/
def paramB : ParamRow :=
  { toolId := 1, key := "b", sortOrder := 2, relationships := none, flags := 0,
    typeId := none, typeInstance := none, typeIdentifier := none, typeKind := none,
    typeRuntimeFlags := none, typeRuntimeRequirements := none }

/-- Parameter row with key "c" and sort order 3. -/
def paramC : ParamRow :=
  { toolId := 1, key := "c", sortOrder := 3, relationships := none, flags := 0,
    typeId := none, typeInstance := none, typeIdentifier := none, typeKind := none,
    typeRuntimeFlags := none, typeRuntimeRequirements := none }

/-- Parameter row owned by no tool in the sample databases. -/
def paramOrphan : ParamRow :=
  { toolId := 99, key := "stray", sortOrder := 0, relationships := none, flags := 0,
    typeId := none, typeInstance := none, typeIdentifier := none, typeKind := none,
    typeRuntimeFlags := none, typeRuntimeRequirements := none }

/-- Store with one tool localized in French and English. -/
def dbFrEn : Db :=
  { tools := [toolA], toolLocs := [locFr, locEn], paramLocs := [plocEn],
    paramsTable := [], types := [] }

/-- Store whose only tool localization has an empty-string locale. -/
def dbBlankLocale : Db :=
  { tools := [toolA], toolLocs := [locBlank], paramLocs := [], paramsTable := [], types := [] }

/-- Store with no rows at all. -/
def dbEmpty : Db :=
  { tools := [], toolLocs := [], paramLocs := [], paramsTable := [], types := [] }

/-- Sanity check: the encoder agrees with `base64.b64encode(b"hi") == b"aGk="`. -/
theorem b64_sample_hi : String.mk (b64EncodeChunks [104, 105]) = "aGk=" := by decide

/-- Sanity check: `base64.b64encode(b"foobar") == b"Zm9vYmFy"`. -/
theorem b64_sample_foobar :
    String.mk (b64EncodeChunks [102, 111, 111, 98, 97, 114]) = "Zm9vYmFy" := by decide

/-- C3: binary-safe encoding round-trip. `encode_blob` maps null to null,
the empty byte sequence to the empty string, and a non-empty byte sequence
to its base64 text; base64-decoding the encoded form of any byte sequence
(empty included) reproduces it exactly. -/
theorem claim3_encode_roundtrip :
    encodeBlob none = none ∧
    encodeBlob (some []) = some "" ∧
    (∀ bs : List Nat, bs ≠ [] → encodeBlob (some bs) = some (String.mk (b64EncodeChunks bs))) ∧
    (∀ bs : List Nat, (∀ b ∈ bs, b < 256) →
      ∃ s, encodeBlob (some bs) = some s ∧ b64Decode s.toList = some bs) := by
  refine ⟨rfl, rfl, ?_, ?_⟩
  · intro bs hbs
    cases bs with
    | nil => exact absurd rfl hbs
    | cons b tl => rfl
  · intro bs h
    cases bs with
    | nil => exact ⟨"", rfl, rfl⟩
    | cons b tl =>
      refine ⟨String.mk (b64EncodeChunks (b :: tl)), rfl, ?_⟩
      exact b64Decode_b64EncodeChunks _ h

/-- Witness for C3 at the concrete byte sequence for the text "hi". -/
theorem claim3_witness :
    ∃ s, encodeBlob (some [104, 105]) = some s ∧ b64Decode s.toList = some [104, 105] :=
  claim3_encode_roundtrip.2.2.2 [104, 105] (by decide)

/-- C6: a parameter row with a null type reference and null joined type
columns yields an argument record whose nested type object has all five
fields null. -/
theorem claim6_type_absence (pl : List ((Int × String) × ParamLocRow)) (p : ParamRow)
    (h1 : p.typeId = none) (h2 : p.typeKind = none) (h3 : p.typeRuntimeFlags = none)
    (h4 : p.typeRuntimeRequirements = none) (h5 : p.typeIdentifier = none) :
    (argRecord pl p).type =
      { rowId := none, kind := none, runtimeFlags := none,
        runtimeRequirements := none, encodedId := none } := by
  simp [argRecord, h1, h2, h3, h4, h5, encodeBlob]

/-- Witness for C6 at a concrete type-less parameter row. -/
theorem claim6_witness :
    (argRecord [] paramP).type =
      { rowId := none, kind := none, runtimeFlags := none,
        runtimeRequirements := none, encodedId := none } :=
  claim6_type_absence [] paramP rfl rfl rfl rfl rfl

/-- C7: builder totality. `build_payload` is embedded as a total function;
its result is defined at exactly the public identifiers of the input
tools, for arbitrary localization maps and parameter rows (missing
localizations, missing types and null blobs included). -/
theorem claim7_builder_totality (tools : List Tool) (tl : List (Int × ToolLocRow))
    (pl : List ((Int × String) × ParamLocRow)) (params : List ParamRow) (k : String) :
    (∃ rec, dget (buildPayload tools tl pl params) k = some rec) ↔ ∃ t ∈ tools, t.id = k := by
  constructor
  · rintro ⟨rec, hrec⟩
    obtain ⟨t, ht, hk, _⟩ := buildPayload_dget_eq_some tools tl pl params k rec hrec
    exact ⟨t, ht, hk⟩
  · intro h
    obtain ⟨r, hr, hk, heq⟩ := dget_foldl_dput_of_exists (fun t : Tool => t.id)
      (fun t => mkToolRecord tl (paramsByTool pl params) t) tools [] k h
    have heq' : dget (buildPayload tools tl pl params) k =
        some (mkToolRecord tl (paramsByTool pl params) r) := heq
    exact ⟨_, heq'⟩

/-- Witness for C7: the sample tool's key is defined in the output. -/
theorem claim7_witness :
    ∃ rec, dget (buildPayload [toolA] [] [] []) "com.example.action" = some rec :=
  (claim7_builder_totality [toolA] [] [] [] "com.example.action").mpr
    ⟨toolA, by decide, by decide⟩

/-- C8: whenever the fetched collection of action-type tool rows is empty,
`main` terminates fatally with a message and writes no output; the model
returns a fatal outcome and never a write. -/
theorem claim8_empty_result_fatal (dbExists : Bool) (db : Db)
    (dbPath outputPath locale fallbackLocale now : String)
    (h : fetchToolRows db = []) :
    (∃ msg, mainModel dbExists db dbPath outputPath locale fallbackLocale now =
      ExitOutcome.fatal msg) ∧
    ∀ path payload, mainModel dbExists db dbPath outputPath locale fallbackLocale now ≠
      ExitOutcome.wrote path payload := by
  constructor
  · cases dbExists with
    | false =>
      refine ⟨"Database not found: " ++ dbPath, ?_⟩
      simp [mainModel]
    | true =>
      refine ⟨"No action tools found in the database.", ?_⟩
      simp [mainModel, h]
  · intro path payload hcontra
    cases dbExists with
    | false => simp [mainModel] at hcontra
    | true => simp [mainModel, h] at hcontra

/-- Witness for C8 at the concrete empty store. -/
theorem claim8_witness :
    (∃ msg, mainModel true dbEmpty "raw.sqlite" "compiled.json" "en" "en" "t0" =
      ExitOutcome.fatal msg) ∧
    ∀ path payload, mainModel true dbEmpty "raw.sqlite" "compiled.json" "en" "en" "t0" ≠
      ExitOutcome.wrote path payload :=
  claim8_empty_result_fatal true dbEmpty "raw.sqlite" "compiled.json" "en" "en" "t0"
    (by decide)

/-- C1 (amended): locale resolution for the tool-level and the
parameter-level map. For every entity key: a primary-locale row always
wins and is never overridden by a fallback row; a fallback-locale row is
used exactly when the key has no primary row and the fallback locale is
present, non-empty, and different from the primary; the key is absent when
no primary row exists and no such usable fallback row exists. The
amendment relative to the claim is the extra non-emptiness condition on
the fallback locale, forced by the code's truthiness test
`if fallback_locale and fallback_locale != locale`. -/
theorem claim1_locale_resolution (db : Db) (L : String) (F : Option String)
    (k : Int) (pk : Int × String) :
    ((∃ r ∈ queryToolLocs db L, r.toolId = k) →
      ∃ r, r ∈ queryToolLocs db L ∧ r.toolId = k ∧
        dget (fetchToolLocalizations db L F) k = some r) ∧
    (∀ f, F = some f → f ≠ "" → f ≠ L →
      (∀ r ∈ queryToolLocs db L, r.toolId ≠ k) →
      (∃ r ∈ queryToolLocs db f, r.toolId = k) →
      ∃ r, r ∈ queryToolLocs db f ∧ r.toolId = k ∧
        dget (fetchToolLocalizations db L F) k = some r) ∧
    ((∀ r ∈ queryToolLocs db L, r.toolId ≠ k) →
      (∀ f, F = some f → f ≠ "" → f ≠ L → ∀ r ∈ queryToolLocs db f, r.toolId ≠ k) →
      dget (fetchToolLocalizations db L F) k = none) ∧
    ((∃ r ∈ queryParamLocs db L, (r.toolId, r.key) = pk) →
      ∃ r, r ∈ queryParamLocs db L ∧ (r.toolId, r.key) = pk ∧
        dget (fetchParameterLocalizations db L F) pk = some r) ∧
    (∀ f, F = some f → f ≠ "" → f ≠ L →
      (∀ r ∈ queryParamLocs db L, (r.toolId, r.key) ≠ pk) →
      (∃ r ∈ queryParamLocs db f, (r.toolId, r.key) = pk) →
      ∃ r, r ∈ queryParamLocs db f ∧ (r.toolId, r.key) = pk ∧
        dget (fetchParameterLocalizations db L F) pk = some r) ∧
    ((∀ r ∈ queryParamLocs db L, (r.toolId, r.key) ≠ pk) →
      (∀ f, F = some f → f ≠ "" → f ≠ L →
        ∀ r ∈ queryParamLocs db f, (r.toolId, r.key) ≠ pk) →
      dget (fetchParameterLocalizations db L F) pk = none) := by
  refine ⟨toolLoc_dget_primary db L F k, ?_, toolLoc_dget_none db L F k,
    paramLoc_dget_primary db L F pk, ?_, paramLoc_dget_none db L F pk⟩
  · intro f hF hne hnl hp h
    subst hF
    exact toolLoc_dget_fallback db L f k hne hnl hp h
  · intro f hF hne hnl hp h
    subst hF
    exact paramLoc_dget_fallback db L f pk hne hnl hp h

/-- Counterexample to C1 as stated: with primary locale "en" and a
fallback locale that is the empty string — present and different from
"en" — a key whose only localization row is in the fallback locale is
still absent from the resolved map, because the code's truthiness test
skips an empty fallback locale entirely. -/
theorem claim1_counterexample :
    (∃ r ∈ queryToolLocs dbBlankLocale "", r.toolId = 1) ∧
    (∀ r ∈ queryToolLocs dbBlankLocale "en", r.toolId ≠ 1) ∧
    some "" ≠ (none : Option String) ∧ "" ≠ "en" ∧
    dget (fetchToolLocalizations dbBlankLocale "en" (some "")) 1 = none := by
  decide

/-- Witness for C1 at a concrete input exercising fallback activation:
locale "de" with fallback "en" resolves to the English row. -/
theorem claim1_witness :
    ∃ r, r ∈ queryToolLocs dbFrEn "en" ∧ r.toolId = 1 ∧
      dget (fetchToolLocalizations dbFrEn "de" (some "en")) 1 = some r :=
  (claim1_locale_resolution dbFrEn "de" (some "en") 1 (1, "value")).2.1 "en" rfl
    (by decide) (by decide) (by decide) (by decide)

/-- Counterexample to C2 as stated: a resolved tool localization whose
name is the empty string (non-null) is still replaced by the tool's public
identifier, so the output name does not equal the resolved name although
that name is neither null nor unresolved. -/
theorem claim2_counterexample :
    dget [((1 : Int), locEmptyName)] 1 = some locEmptyName ∧
    locEmptyName.name = some "" ∧
    (dget (buildPayload [toolA] [(1, locEmptyName)] [] []) toolA.id).map
      (fun r => r.name) = some toolA.id ∧
    toolA.id ≠ "" := by
  decide

/-- C2 (amended): default-name substitution. The output name equals the
resolved localization's name whenever that name is non-null and
non-empty; it equals the entity's own identifier (tool public id, or
parameter key) when the resolved name is null or empty, or when no
localization was resolved. The amendment relative to the claim is the
extra empty-string case, forced by Python `or` truthiness. -/
theorem claim2_default_name_substitution (tools : List Tool) (tl : List (Int × ToolLocRow))
    (pl : List ((Int × String) × ParamLocRow)) (params : List ParamRow)
    (t : Tool) (rec : ToolRecord) (p : ParamRow)
    (hnd : (tools.map (fun t => t.id)).Nodup) (ht : t ∈ tools)
    (hrec : dget (buildPayload tools tl pl params) t.id = some rec) :
    (∀ l n, dget tl t.rowId = some l → l.name = some n → n ≠ "" → rec.name = n) ∧
    (∀ l, dget tl t.rowId = some l → (l.name = none ∨ l.name = some "") →
      rec.name = t.id) ∧
    (dget tl t.rowId = none → rec.name = t.id) ∧
    (∀ l n, dget pl (p.toolId, p.key) = some l → l.name = some n → n ≠ "" →
      (argRecord pl p).name = n) ∧
    (∀ l, dget pl (p.toolId, p.key) = some l → (l.name = none ∨ l.name = some "") →
      (argRecord pl p).name = p.key) ∧
    (dget pl (p.toolId, p.key) = none → (argRecord pl p).name = p.key) := by
  have hrec' : rec = mkToolRecord tl (paramsByTool pl params) t := by
    have h0 := buildPayload_dget_of_nodup tools tl pl params t hnd ht
    rw [hrec] at h0
    exact Option.some_inj.mp h0
  refine ⟨?_, ?_, ?_, ?_, ?_, ?_⟩
  · intro l n hl hn hne
    rw [hrec']
    simp [mkToolRecord, pyOrStr, hl, hn, hne]
  · intro l hl hcase
    rw [hrec']
    rcases hcase with hn | hn <;> simp [mkToolRecord, pyOrStr, hl, hn]
  · intro hl
    rw [hrec']
    simp [mkToolRecord, pyOrStr, hl]
  · intro l n hl hn hne
    simp [argRecord, pyOrStr, hl, hn, hne]
  · intro l hl hcase
    rcases hcase with hn | hn <;> simp [argRecord, pyOrStr, hl, hn]
  · intro hl
    simp [argRecord, pyOrStr, hl]

/-- Witness for C2 at a concrete input: a non-empty resolved name is used
verbatim as the output name. -/
theorem claim2_witness :
    (mkToolRecord [((1 : Int), locEn)] (paramsByTool [] []) toolA).name = "English Name" :=
  (claim2_default_name_substitution [toolA] [(1, locEn)] [] [] toolA
      (mkToolRecord [((1 : Int), locEn)] (paramsByTool [] []) toolA) paramP
      (by decide) (by decide) (by decide)).1 locEn "English Name"
    (by decide) (by decide) (by decide)

/-- C9: empty-string names also trigger substitution. When the resolved
tool localization's name is the empty string, the output name is the
tool's public identifier; when the resolved parameter localization's name
is the empty string, the argument record's name is the parameter's key. -/
theorem claim9_empty_name_substitution (tools : List Tool) (tl : List (Int × ToolLocRow))
    (pl : List ((Int × String) × ParamLocRow)) (params : List ParamRow)
    (t : Tool) (rec : ToolRecord) (p : ParamRow)
    (hnd : (tools.map (fun t => t.id)).Nodup) (ht : t ∈ tools)
    (hrec : dget (buildPayload tools tl pl params) t.id = some rec) :
    (∀ l, dget tl t.rowId = some l → l.name = some "" → rec.name = t.id) ∧
    (∀ l, dget pl (p.toolId, p.key) = some l → l.name = some "" →
      (argRecord pl p).name = p.key) := by
  have hrec' : rec = mkToolRecord tl (paramsByTool pl params) t := by
    have h0 := buildPayload_dget_of_nodup tools tl pl params t hnd ht
    rw [hrec] at h0
    exact Option.some_inj.mp h0
  constructor
  · intro l hl hn
    rw [hrec']
    simp [mkToolRecord, pyOrStr, hl, hn]
  · intro l hl hn
    simp [argRecord, pyOrStr, hl, hn]

/-- Witness for C9 at concrete empty-string localization names. -/
theorem claim9_witness :
    (mkToolRecord [((1 : Int), locEmptyName)]
      (paramsByTool [(((1 : Int), "value"), plocEmptyName)] [paramP]) toolA).name = toolA.id ∧
    (argRecord [(((1 : Int), "value"), plocEmptyName)] paramP).name = paramP.key :=
  And.intro
    ((claim9_empty_name_substitution [toolA] [((1 : Int), locEmptyName)]
        [(((1 : Int), "value"), plocEmptyName)] [paramP] toolA
        (mkToolRecord [((1 : Int), locEmptyName)]
          (paramsByTool [(((1 : Int), "value"), plocEmptyName)] [paramP]) toolA) paramP
        (by decide) (by decide) (by decide)).1 locEmptyName (by decide) (by decide))
    ((claim9_empty_name_substitution [toolA] [((1 : Int), locEmptyName)]
        [(((1 : Int), "value"), plocEmptyName)] [paramP] toolA
        (mkToolRecord [((1 : Int), locEmptyName)]
          (paramsByTool [(((1 : Int), "value"), plocEmptyName)] [paramP]) toolA) paramP
        (by decide) (by decide) (by decide)).2 plocEmptyName (by decide) (by decide))

/-- Ordering required of a tool's output argument sequence: ascending sort
order, ties broken by ascending key. -/
def argRecLe (a b : ArgRecord) : Prop :=
  a.sortOrder < b.sortOrder ∨ (a.sortOrder = b.sortOrder ∧ (a.key < b.key ∨ a.key = b.key))

/-- C4: argument ordering. If the parameter collection is ordered by
(owning tool id, sort order, key) as the fetch contract guarantees, then
every tool record's argument sequence is ordered by sort order ascending
with ties broken by key ascending. -/
theorem claim4_argument_ordering (tools : List Tool) (tl : List (Int × ToolLocRow))
    (pl : List ((Int × String) × ParamLocRow)) (params : List ParamRow)
    (t : Tool) (rec : ToolRecord)
    (hsorted : params.Pairwise paramRowLe)
    (hnd : (tools.map (fun t => t.id)).Nodup) (ht : t ∈ tools)
    (hrec : dget (buildPayload tools tl pl params) t.id = some rec) :
    rec.arguments.Pairwise argRecLe := by
  have hrec' : rec = mkToolRecord tl (paramsByTool pl params) t := by
    have h0 := buildPayload_dget_of_nodup tools tl pl params t hnd ht
    rw [hrec] at h0
    exact Option.some_inj.mp h0
  rw [hrec', mkToolRecord_arguments, paramsByTool_getD, List.pairwise_map]
  have hfilter : (params.filter (fun p => decide (p.toolId = t.rowId))).Pairwise paramRowLe :=
    hsorted.filter _
  refine hfilter.imp_of_mem ?_
  intro a b ha hb hab
  have haT : a.toolId = t.rowId := by
    have := (List.mem_filter.mp ha).2
    simpa using this
  have hbT : b.toolId = t.rowId := by
    have := (List.mem_filter.mp hb).2
    simpa using this
  rcases hab with hlt | ⟨_, hrest⟩
  · rw [haT, hbT] at hlt
    exact absurd hlt (lt_irrefl _)
  · exact hrest

/-- Witness for C4: parameters declared with sort orders 1, 2, 3 and keys
"a", "b", "c" yield an ordered argument sequence. -/
theorem claim4_witness :
    (mkToolRecord [] (paramsByTool [] [paramA, paramB, paramC]) toolA).arguments.Pairwise
      argRecLe :=
  claim4_argument_ordering [toolA] [] [] [paramA, paramB, paramC] toolA
    (mkToolRecord [] (paramsByTool [] [paramA, paramB, paramC]) toolA)
    (by decide) (by decide) (by decide) (by decide)

/-- C5: grouping completeness. With distinct internal row identifiers and
distinct public identifiers, each tool record's argument list is exactly
the rendering of the parameter rows owned by that tool; a parameter row
owned by an included tool belongs to that tool alone among the included
tools; and a tool owning no parameter rows gets the empty argument list
(the field is always present in the record). -/
theorem claim5_grouping_completeness (tools : List Tool) (tl : List (Int × ToolLocRow))
    (pl : List ((Int × String) × ParamLocRow)) (params : List ParamRow)
    (t : Tool) (rec : ToolRecord)
    (hndRow : (tools.map (fun t => t.rowId)).Nodup)
    (hndId : (tools.map (fun t => t.id)).Nodup)
    (ht : t ∈ tools)
    (hrec : dget (buildPayload tools tl pl params) t.id = some rec) :
    rec.arguments = (params.filter (fun p => decide (p.toolId = t.rowId))).map (argRecord pl) ∧
    (∀ p ∈ params, p.toolId = t.rowId →
      tools.filter (fun t2 => decide (p.toolId = t2.rowId)) = [t]) ∧
    ((∀ p ∈ params, p.toolId ≠ t.rowId) → rec.arguments = []) := by
  have hrec' : rec = mkToolRecord tl (paramsByTool pl params) t := by
    have h0 := buildPayload_dget_of_nodup tools tl pl params t hndId ht
    rw [hrec] at h0
    exact Option.some_inj.mp h0
  refine ⟨?_, ?_, ?_⟩
  · rw [hrec', mkToolRecord_arguments, paramsByTool_getD]
  · intro p hp hpt
    rw [hpt]
    exact filter_eq_singleton_of_nodup_map (fun t => t.rowId) tools t hndRow ht
  · intro hnone
    rw [hrec', mkToolRecord_arguments, paramsByTool_getD]
    have hnil : params.filter (fun p => decide (p.toolId = t.rowId)) = [] :=
      List.filter_eq_nil_iff.mpr (fun p hp => by
        simp only [decide_eq_true_eq]
        exact hnone p hp)
    rw [hnil]
    rfl

/-- Witness for C5 at a concrete store with two tools, where only the
first owns a parameter row. -/
theorem claim5_witness :
    (mkToolRecord [] (paramsByTool [] [paramA]) toolA).arguments =
      ([paramA].filter (fun p => decide (p.toolId = toolA.rowId))).map (argRecord []) ∧
    (∀ p ∈ [paramA], p.toolId = toolA.rowId →
      [toolA, toolB].filter (fun t2 => decide (p.toolId = t2.rowId)) = [toolA]) ∧
    ((∀ p ∈ [paramA], p.toolId ≠ toolA.rowId) →
      (mkToolRecord [] (paramsByTool [] [paramA]) toolA).arguments = []) :=
  claim5_grouping_completeness [toolA, toolB] [] [] [paramA] toolA
    (mkToolRecord [] (paramsByTool [] [paramA]) toolA)
    (by decide) (by decide) (by decide) (by decide)

/-- C10: orphan parameters are dropped. A parameter row whose owning tool
identifier matches no tool in the input is grouped into the parameter map
but attached to no tool record: every record in the output belongs to some
input tool, and the orphan row passes no tool's ownership filter. -/
theorem claim10_orphan_parameters (tools : List Tool) (tl : List (Int × ToolLocRow))
    (pl : List ((Int × String) × ParamLocRow)) (params : List ParamRow)
    (p : ParamRow) (key : String) (rec : ToolRecord)
    (hp : p ∈ params) (horphan : ∀ t ∈ tools, p.toolId ≠ t.rowId)
    (hrec : dget (buildPayload tools tl pl params) key = some rec) :
    argRecord pl p ∈ (dget (paramsByTool pl params) p.toolId).getD [] ∧
    ∃ t, t ∈ tools ∧ t.id = key ∧
      rec.arguments = (params.filter (fun q => decide (q.toolId = t.rowId))).map (argRecord pl) ∧
      p ∉ params.filter (fun q => decide (q.toolId = t.rowId)) := by
  constructor
  · rw [paramsByTool_getD]
    exact List.mem_map_of_mem _ (List.mem_filter.mpr ⟨hp, by simp⟩)
  · obtain ⟨t, ht, hk, hrec'⟩ := buildPayload_dget_eq_some tools tl pl params key rec hrec
    refine ⟨t, ht, hk, ?_, ?_⟩
    · rw [hrec', mkToolRecord_arguments, paramsByTool_getD]
    · intro hmem
      have hq := (List.mem_filter.mp hmem).2
      simp only [decide_eq_true_eq] at hq
      exact horphan t ht hq

/-- Witness for C10 at a concrete orphan parameter row owned by the
absent tool identifier 99. -/
theorem claim10_witness :
    argRecord [] paramOrphan ∈ (dget (paramsByTool [] [paramOrphan]) paramOrphan.toolId).getD [] ∧
    ∃ t, t ∈ [toolA] ∧ t.id = toolA.id ∧
      (mkToolRecord [] (paramsByTool [] [paramOrphan]) toolA).arguments =
        ([paramOrphan].filter (fun q => decide (q.toolId = t.rowId))).map (argRecord []) ∧
      paramOrphan ∉ [paramOrphan].filter (fun q => decide (q.toolId = t.rowId)) :=
  claim10_orphan_parameters [toolA] [] [] [paramOrphan] paramOrphan toolA.id
    (mkToolRecord [] (paramsByTool [] [paramOrphan]) toolA)
    (by decide) (by decide) (by decide)
